import Mathlib

/-!
Shallow embedding of the `IDVStorage` sparse-to-dense interleaved storage
(`src/src/lib.rs`).  Machine integers (`usize`, `u16`, `u32`) are modelled as
`Nat` with explicit wrapping (`% 2^64`, `% 2^16`, `% 2^32`) exactly where the
release-mode Rust arithmetic wraps.  `unsafe` out-of-bounds accesses
(`get_unchecked`) and indexing panics are modelled by an explicit error result
(`Except Err _`): an `.error` outcome corresponds to undefined behaviour or a
panic in the source.  `debug_assert!` lines are compiled out in release mode
and are therefore not part of the semantics.  The one unbounded `while` loop
(`find_free`) is modelled with explicit fuel; every call site passes fuel
`inner.length + 2`, which is enough to reach any outcome the Rust loop can
reach in finitely many steps (`.spin` is returned only when the Rust loop
diverges or cycles without progress).
-/

namespace IDVS

/-- `usize::MAX + 1`: the modulus of 64-bit machine arithmetic. -/
abbrev USIZE : Nat := 2 ^ 64

/-- `u32` modulus, for the `as u32` cast in `c_clean`. -/
abbrev U32 : Nat := 2 ^ 32

/-- Release-mode `n - 1` on `usize`: wraps to `usize::MAX` when `n = 0`. -/
def usizeSub1 (n : Nat) : Nat := if n = 0 then USIZE - 1 else n - 1

/-- `struct InterleavedGroup<T> { redirects: [u16; SPARSE_RATIO], data: Option<T> }`
with `SPARSE_RATIO = 4`.  The four `u16` redirect entries are a length-4 list
of naturals below `2^16`. -/
structure InterleavedGroup (T : Type) where
  redirects : List Nat
  data : Option T
deriving DecidableEq, Repr

/-- `InterleavedGroup::blank()`: zero redirects, empty payload. -/
def InterleavedGroup.blank {T : Type} : InterleavedGroup T :=
  { redirects := [0, 0, 0, 0], data := none }

/-- `pub struct IDVStorage<T> { inner: Vec<InterleavedGroup<T>>, next_free_slot: usize }`. -/
structure IDVStorage (T : Type) where
  inner : List (InterleavedGroup T)
  next_free_slot : Nat
deriving DecidableEq, Repr

/-- `impl Default for IDVStorage`: empty vector, `next_free_slot = 0`. -/
def IDVStorage.default (T : Type) : IDVStorage T :=
  { inner := [], next_free_slot := 0 }

/-- Error outcomes of the embedded unsafe code: `oob` models an
out-of-bounds `get_unchecked` (undefined behaviour), `badIndex` models an
indexing panic (`self.inner[idx]`), `spin` models non-termination of the
`find_free` loop (fuel exhaustion). -/
inductive Err
  | oob
  | badIndex
  | spin
deriving DecidableEq, Repr

/-- `resolve_to_internal`: read the redirect entry at
`(idx / 4, idx % 4)`.  `none` models the out-of-bounds group access when the
group does not exist; the sub-slot access `idx % 4 < 4` is always in bounds
in the source's `[u16; 4]` array. -/
def resolve_to_internal {T : Type} (s : IDVStorage T) (idx : Nat) : Option Nat :=
  match s.inner.get? (idx / 4) with
  | none => none
  | some g => some (g.redirects.getD (idx % 4) 0)

/-- The `while self.inner.len() / SPARSE_RATIO < idx_cap { push(blank) }` loop
of `check_prefill`. -/
def check_prefill_loop {T : Type} (inner : List (InterleavedGroup T)) (idx_cap : Nat) :
    List (InterleavedGroup T) :=
  if inner.length / 4 < idx_cap then
    check_prefill_loop (inner ++ [InterleavedGroup.blank]) idx_cap
  else
    inner
termination_by 4 * idx_cap - inner.length
decreasing_by
  simp only [List.length_append, List.length_cons, List.length_nil]
  omega

/-- `check_prefill`: grow `inner` until `inner.len() / 4 >= idx_cap`.
(`Vec::reserve` only affects capacity and is not modelled.) -/
def check_prefill {T : Type} (s : IDVStorage T) (idx_cap : Nat) : IDVStorage T :=
  { s with inner := check_prefill_loop s.inner idx_cap }

/-- Outcome of the `find_free` scan loop. -/
inductive FreeScan
  | found (i : Nat)
  | exhausted
  | oob
  | spin
deriving DecidableEq, Repr

/-- The `while i != start + 1` loop of `find_free`, with fuel.  Each
iteration: compare `i` against `(start + 1)` (wrapping), reset `i` to `0`
when `i == inner.len() - 1` (wrapping), read slot `i` (`.oob` when out of
bounds), return it when its payload is empty, else advance. -/
def find_free_scan {T : Type} (inner : List (InterleavedGroup T)) (start : Nat) :
    Nat → Nat → FreeScan
  | _, 0 => .spin
  | i, fuel + 1 =>
    if i ≠ (start + 1) % USIZE then
      match inner.get? (if i = usizeSub1 inner.length then 0 else i) with
      | none => .oob
      | some e =>
        match e.data with
        | none => .found (if i = usizeSub1 inner.length then 0 else i)
        | some _ =>
          find_free_scan inner start
            (((if i = usizeSub1 inner.length then 0 else i) + 1) % USIZE) fuel
    else
      .exhausted

/-- `find_free`: `start = next_free_slot - 1` (wrapping); on a successful
probe record and return the slot; when the loop exits without finding one,
push two blank groups and return the last position. -/
def find_free {T : Type} (s : IDVStorage T) (fuel : Nat) :
    Except Err (Nat × IDVStorage T) :=
  let start := usizeSub1 s.next_free_slot
  match find_free_scan s.inner start start fuel with
  | .found i => .ok (i, { s with next_free_slot := i })
  | .exhausted =>
    let inner := s.inner ++ [InterleavedGroup.blank, InterleavedGroup.blank]
    .ok (inner.length - 1, { inner := inner, next_free_slot := inner.length - 1 })
  | .oob => .error .oob
  | .spin => .error .spin

/-- `c_insert`: prefill, acquire a slot, write the redirect entry
(truncated to `u16` by `% 2^16`), store the value. -/
def c_insert {T : Type} (s : IDVStorage T) (idx : Nat) (v : T) :
    Except Err (IDVStorage T) :=
  let s0 := check_prefill s idx
  match find_free s0 (s0.inner.length + 2) with
  | .error e => .error e
  | .ok (internal_point, s1) =>
    match s1.inner.get? (idx / 4) with
    | none => .error .oob
    | some g =>
      let inner1 := s1.inner.set (idx / 4)
        { g with redirects := g.redirects.set (idx % 4) (internal_point % 2 ^ 16) }
      match inner1.get? internal_point with
      | none => .error .oob
      | some e =>
        .ok { s1 with inner := inner1.set internal_point { e with data := some v } }

/-- `c_get`: resolve the redirect entry and read the payload there. -/
def c_get {T : Type} (s : IDVStorage T) (idx : Nat) : Except Err (Option T) :=
  match resolve_to_internal s idx with
  | none => .error .oob
  | some internal =>
    match s.inner.get? internal with
    | none => .error .oob
    | some e => .ok e.data

/-- `c_get_mut`: same resolution as `c_get` (the borrow is modelled by
returning the payload). -/
def c_get_mut {T : Type} (s : IDVStorage T) (idx : Nat) : Except Err (Option T) :=
  match resolve_to_internal s idx with
  | none => .error .oob
  | some internal =>
    match s.inner.get? internal with
    | none => .error .oob
    | some e => .ok e.data

/-- `c_remove`: resolve the redirect entry and `take()` the payload. -/
def c_remove {T : Type} (s : IDVStorage T) (idx : Nat) :
    Except Err (Option T × IDVStorage T) :=
  match resolve_to_internal s idx with
  | none => .error .oob
  | some internal =>
    match s.inner.get? internal with
    | none => .error .oob
    | some e =>
      .ok (e.data, { s with inner := s.inner.set internal { e with data := none } })

/-- First loop of `c_clean`: for every group `i` and sub-slot `j < 4`, when
`has.contains((i * j) as u32)` holds push the redirect entry
`inner[i].redirects[j]` onto the garbage list.  Note the source tests the
PRODUCT `i * j`, truncated to `u32`. -/
def clean_collect {T : Type} (inner : List (InterleavedGroup T)) (has : Nat → Bool) :
    List Nat :=
  ((List.range inner.length).map (fun i =>
    (List.range 4).filterMap (fun j =>
      if has ((i * j) % U32) then
        some ((inner.getD i InterleavedGroup.blank).redirects.getD j 0)
      else
        none))).flatten

/-- Second loop of `c_clean`: `self.inner[idx].data = None` for every
collected index; `.badIndex` models the panic of the checked indexing when
`idx` is out of bounds. -/
def clean_apply {T : Type} (inner : List (InterleavedGroup T)) :
    List Nat → Except Err (List (InterleavedGroup T))
  | [] => .ok inner
  | idx :: rest =>
    match inner.get? idx with
    | none => .error .badIndex
    | some e => clean_apply (inner.set idx { e with data := none }) rest

/-- `c_clean`: collect the redirect targets of all (group, sub-slot) pairs
whose product index the liveness query contains, then clear those slots. -/
def c_clean {T : Type} (s : IDVStorage T) (has : Nat → Bool) :
    Except Err (IDVStorage T) :=
  match clean_apply s.inner (clean_collect s.inner has) with
  | .ok inner => .ok { s with inner := inner }
  | .error e => .error e

/-- The five operations exposed by `UnprotectedStorage for IDVStorage`. -/
inductive Op (T : Type)
  | insert (idx : Nat) (v : T)
  | get (idx : Nat)
  | getMut (idx : Nat)
  | remove (idx : Nat)
  | clean (has : Nat → Bool)

/-- Apply one operation to the storage state. -/
def Op.apply {T : Type} (s : IDVStorage T) : Op T → Except Err (IDVStorage T)
  | .insert idx v => c_insert s idx v
  | .get idx =>
    match c_get s idx with
    | .ok _ => .ok s
    | .error e => .error e
  | .getMut idx =>
    match c_get_mut s idx with
    | .ok _ => .ok s
    | .error e => .error e
  | .remove idx =>
    match c_remove s idx with
    | .ok p => .ok p.2
    | .error e => .error e
  | .clean has => c_clean s has

/-- Run a sequence of operations, stopping at the first error. -/
def run {T : Type} (s : IDVStorage T) : List (Op T) → Except Err (IDVStorage T)
  | [] => .ok s
  | op :: ops =>
    match Op.apply s op with
    | .ok s' => run s' ops
    | .error e => .error e

/-- Well-formedness: every group's redirect array has the source's fixed
width 4 (`[u16; SPARSE_RATIO]`). -/
def WF {T : Type} (s : IDVStorage T) : Prop :=
  ∀ g ∈ s.inner, g.redirects.length = 4

/-! ### Helper lemmas -/

theorem get_q_some_lt {α : Type} :
    ∀ {l : List α} {n : Nat} {a : α}, l.get? n = some a → n < l.length := by
  intro l
  induction l with
  | nil => intro n a h; simp [List.get?] at h
  | cons x xs ih =>
    intro n a h
    cases n with
    | zero => simp
    | succ m =>
      simp only [List.get?] at h
      have := ih h
      simp only [List.length_cons]
      omega

theorem get_q_of_lt {α : Type} :
    ∀ {l : List α} {n : Nat}, n < l.length → ∃ a, l.get? n = some a := by
  intro l
  induction l with
  | nil => intro n h; simp at h
  | cons x xs ih =>
    intro n h
    cases n with
    | zero => exact ⟨x, rfl⟩
    | succ m =>
      simp only [List.length_cons] at h
      exact ih (by omega)

theorem get_q_set_self {α : Type} :
    ∀ {l : List α} {n : Nat} (a : α), n < l.length → (l.set n a).get? n = some a := by
  intro l
  induction l with
  | nil => intro n a h; simp at h
  | cons x xs ih =>
    intro n a h
    cases n with
    | zero => rfl
    | succ m =>
      simp only [List.length_cons] at h
      simpa [List.set] using ih a (by omega)

theorem get_q_set_other {α : Type} :
    ∀ {l : List α} {m n : Nat} (a : α), m ≠ n → (l.set m a).get? n = l.get? n := by
  intro l
  induction l with
  | nil => intro m n a _; simp [List.set]
  | cons x xs ih =>
    intro m n a hmn
    cases m with
    | zero =>
      cases n with
      | zero => exact absurd rfl hmn
      | succ k => rfl
    | succ m' =>
      cases n with
      | zero => rfl
      | succ k => simpa [List.set] using ih a (by omega)

theorem mem_set_of_mem {α : Type} :
    ∀ {l : List α} {n : Nat} {a b : α}, b ∈ l.set n a → b ∈ l ∨ b = a := by
  intro l
  induction l with
  | nil => intro n a b h; simp [List.set] at h
  | cons x xs ih =>
    intro n a b h
    cases n with
    | zero =>
      rcases List.mem_cons.mp h with h | h
      · right; exact h
      · left; exact List.mem_cons_of_mem _ h
    | succ m =>
      rcases List.mem_cons.mp h with h | h
      · left; exact h ▸ List.mem_cons_self _ _
      · rcases ih h with h | h
        · left; exact List.mem_cons_of_mem _ h
        · right; exact h

theorem check_prefill_loop_eq_self {T : Type} (inner : List (InterleavedGroup T))
    (cap : Nat) (h : cap ≤ inner.length / 4) : check_prefill_loop inner cap = inner := by
  unfold check_prefill_loop
  simp [Nat.not_lt.mpr h]

theorem check_prefill_loop_spec {T : Type} (inner : List (InterleavedGroup T)) (cap : Nat) :
    inner.length ≤ (check_prefill_loop inner cap).length ∧
    cap ≤ (check_prefill_loop inner cap).length / 4 ∧
    ∀ g ∈ check_prefill_loop inner cap, g ∈ inner ∨ g = InterleavedGroup.blank := by
  generalize hm : 4 * cap - inner.length = m
  induction m generalizing inner with
  | zero =>
    have hle : cap ≤ inner.length / 4 := by omega
    rw [check_prefill_loop_eq_self inner cap hle]
    exact ⟨Nat.le_refl _, hle, fun g hg => Or.inl hg⟩
  | succ k ih =>
    by_cases hc : inner.length / 4 < cap
    · have step : check_prefill_loop inner cap =
          check_prefill_loop (inner ++ [InterleavedGroup.blank]) cap := by
        conv_lhs => rw [check_prefill_loop]
        rw [if_pos hc]
      have hlen : (inner ++ [InterleavedGroup.blank]).length = inner.length + 1 := by
        simp
      have hrec := ih (inner ++ [InterleavedGroup.blank]) (by omega)
      rw [step]
      refine ⟨by omega, hrec.2.1, fun g hg => ?_⟩
      rcases hrec.2.2 g hg with h | h
      · rcases List.mem_append.mp h with h | h
        · exact Or.inl h
        · right; simpa using h
      · exact Or.inr h
    · have hle : cap ≤ inner.length / 4 := Nat.not_lt.mp hc
      rw [check_prefill_loop_eq_self inner cap hle]
      exact ⟨Nat.le_refl _, hle, fun g hg => Or.inl hg⟩

theorem check_prefill_noop {T : Type} (s : IDVStorage T) (cap : Nat)
    (h : cap ≤ s.inner.length / 4) : check_prefill s cap = s := by
  unfold check_prefill
  rw [check_prefill_loop_eq_self _ _ h]

theorem check_prefill_zero {T : Type} (s : IDVStorage T) : check_prefill s 0 = s :=
  check_prefill_noop s 0 (Nat.zero_le _)

theorem find_free_scan_found_spec {T : Type} (inner : List (InterleavedGroup T))
    (start : Nat) :
    ∀ (fuel i j : Nat), find_free_scan inner start i fuel = .found j →
      ∃ g, inner.get? j = some g ∧ g.data = none := by
  intro fuel
  induction fuel with
  | zero => intro i j h; simp [find_free_scan] at h
  | succ fuel ih =>
    intro i j h
    rw [find_free_scan] at h
    split at h
    · split at h
      · cases h
      · rename_i e heq
        split at h
        · rename_i hd
          cases h
          exact ⟨e, heq, hd⟩
        · exact ih _ _ h
    · cases h

theorem find_free_cases {T : Type} {s : IDVStorage T} {fuel ip : Nat}
    {s' : IDVStorage T} (h : find_free s fuel = .ok (ip, s')) :
    (s'.inner = s.inner ∧ s'.next_free_slot = ip ∧
      ∃ g, s.inner.get? ip = some g ∧ g.data = none) ∨
    (s'.inner = s.inner ++ [InterleavedGroup.blank, InterleavedGroup.blank] ∧
      ip = s.inner.length + 1 ∧ s'.next_free_slot = ip) := by
  cases hscan : find_free_scan s.inner (usizeSub1 s.next_free_slot)
      (usizeSub1 s.next_free_slot) fuel with
  | found i =>
    simp only [find_free, hscan] at h
    cases h
    left
    exact ⟨rfl, rfl, find_free_scan_found_spec _ _ _ _ _ hscan⟩
  | exhausted =>
    simp only [find_free, hscan] at h
    cases h
    right
    refine ⟨rfl, ?_, ?_⟩ <;> simp
  | oob =>
    simp only [find_free, hscan] at h
    cases h
  | spin =>
    simp only [find_free, hscan] at h
    cases h

theorem find_free_ok_len {T : Type} {s : IDVStorage T} {fuel ip : Nat}
    {s' : IDVStorage T} (h : find_free s fuel = .ok (ip, s')) :
    ip < s'.inner.length ∧ s.inner.length ≤ s'.inner.length ∧
      s'.inner.length ≤ s.inner.length + 2 := by
  rcases find_free_cases h with ⟨hi, _, g, hg, _⟩ | ⟨hi, hip, _⟩
  · rw [hi]
    exact ⟨get_q_some_lt hg, Nat.le_refl _, by omega⟩
  · rw [hi, hip]
    simp

theorem get_q_mem {α : Type} :
    ∀ {l : List α} {n : Nat} {a : α}, l.get? n = some a → a ∈ l := by
  intro l
  induction l with
  | nil => intro n a h; simp [List.get?] at h
  | cons x xs ih =>
    intro n a h
    cases n with
    | zero =>
      cases h
      exact List.mem_cons_self _ _
    | succ m => exact List.mem_cons_of_mem _ (ih h)

theorem getD_of_get_q {α : Type} {l : List α} {n : Nat} {a : α} (d : α)
    (h : l.get? n = some a) : l.getD n d = a := by
  rw [List.get?_eq_getElem?] at h
  simp [List.getD, h]

theorem getD_set_self {α : Type} {l : List α} {n : Nat} (a d : α)
    (h : n < l.length) : (l.set n a).getD n d = a :=
  getD_of_get_q d (get_q_set_self a h)

theorem get_q_append_two {α : Type} (a b : α) :
    ∀ (l : List α), (l ++ [a, b]).get? (l.length + 1) = some b := by
  intro l
  induction l with
  | nil => rfl
  | cons x xs ih => simpa using ih

theorem wf_check_prefill {T : Type} {s : IDVStorage T} (hwf : WF s) (cap : Nat) :
    WF (check_prefill s cap) := by
  intro g hg
  simp only [check_prefill] at hg
  rcases (check_prefill_loop_spec s.inner cap).2.2 g hg with h | h
  · exact hwf g h
  · rw [h]; rfl

theorem wf_find_free {T : Type} {s s' : IDVStorage T} {fuel ip : Nat}
    (hwf : WF s) (h : find_free s fuel = .ok (ip, s')) : WF s' := by
  intro g hg
  rcases find_free_cases h with ⟨hi, _, _⟩ | ⟨hi, _, _⟩
  · exact hwf g (hi ▸ hg)
  · rw [hi] at hg
    rcases List.mem_append.mp hg with h' | h'
    · exact hwf g h'
    · have : g = InterleavedGroup.blank := by
        rcases List.mem_cons.mp h' with h'' | h''
        · exact h''
        · simpa using h''
      rw [this]; rfl

theorem clean_apply_length {T : Type} :
    ∀ (gs : List Nat) (inner inner' : List (InterleavedGroup T)),
      clean_apply inner gs = .ok inner' → inner'.length = inner.length := by
  intro gs
  induction gs with
  | nil =>
    intro inner inner' h
    cases h
    rfl
  | cons idx rest ih =>
    intro inner inner' h
    unfold clean_apply at h
    cases hg : inner.get? idx with
    | none => rw [hg] at h; cases h
    | some e =>
      rw [hg] at h
      have := ih _ _ h
      rw [this, List.length_set]

theorem c_insert_length_mono {T : Type} {s s' : IDVStorage T} {idx : Nat} {v : T}
    (h : c_insert s idx v = .ok s') : s.inner.length ≤ s'.inner.length := by
  simp only [c_insert] at h
  cases hf : find_free (check_prefill s idx) ((check_prefill s idx).inner.length + 2) with
  | error e =>
    simp only [hf] at h
    cases h
  | ok p =>
    obtain ⟨ip, s1⟩ := p
    simp only [hf] at h
    cases hg : s1.inner.get? (idx / 4) with
    | none =>
      simp only [hg] at h
      cases h
    | some g =>
      simp only [hg] at h
      cases hg2 : (s1.inner.set (idx / 4)
          { g with redirects := g.redirects.set (idx % 4) (ip % 2 ^ 16) }).get? ip with
      | none =>
        simp only [hg2] at h
        cases h
      | some e =>
        simp only [hg2] at h
        cases h
        have hcp : s.inner.length ≤ (check_prefill s idx).inner.length :=
          (check_prefill_loop_spec s.inner idx).1
        have hff := (find_free_ok_len hf).2.1
        simp only [List.length_set]
        omega

theorem c_remove_eq_length {T : Type} {s s' : IDVStorage T} {idx : Nat} {p : Option T}
    (h : c_remove s idx = .ok (p, s')) : s'.inner.length = s.inner.length := by
  unfold c_remove at h
  cases hr : resolve_to_internal s idx with
  | none =>
    simp only [hr] at h
    cases h
  | some internal =>
    simp only [hr] at h
    cases hg : s.inner.get? internal with
    | none =>
      simp only [hg] at h
      cases h
    | some e =>
      simp only [hg] at h
      cases h
      simp [List.length_set]

theorem c_clean_eq_length {T : Type} {s s' : IDVStorage T} {has : Nat → Bool}
    (h : c_clean s has = .ok s') : s'.inner.length = s.inner.length := by
  unfold c_clean at h
  cases hc : clean_apply s.inner (clean_collect s.inner has) with
  | error e =>
    simp only [hc] at h
    cases h
  | ok inner' =>
    simp only [hc] at h
    cases h
    exact clean_apply_length _ _ _ hc

theorem op_apply_length_mono {T : Type} {s s' : IDVStorage T} {op : Op T}
    (h : Op.apply s op = .ok s') : s.inner.length ≤ s'.inner.length := by
  cases op with
  | insert idx v => exact c_insert_length_mono h
  | get idx =>
    simp only [Op.apply] at h
    cases hg : c_get s idx with
    | error e => simp only [hg] at h; cases h
    | ok r =>
      simp only [hg] at h
      cases h
      exact Nat.le_refl _
  | getMut idx =>
    simp only [Op.apply] at h
    cases hg : c_get_mut s idx with
    | error e => simp only [hg] at h; cases h
    | ok r =>
      simp only [hg] at h
      cases h
      exact Nat.le_refl _
  | remove idx =>
    simp only [Op.apply] at h
    cases hg : c_remove s idx with
    | error e => simp only [hg] at h; cases h
    | ok p =>
      simp only [hg] at h
      cases h
      exact Nat.le_of_eq (c_remove_eq_length (p := p.1) (by rw [← hg])).symm
  | clean has =>
    simp only [Op.apply] at h
    exact Nat.le_of_eq (c_clean_eq_length h).symm

theorem run_length_mono {T : Type} :
    ∀ (ops : List (Op T)) (s s' : IDVStorage T),
      run s ops = .ok s' → s.inner.length ≤ s'.inner.length := by
  intro ops
  induction ops with
  | nil =>
    intro s s' h
    cases h
    exact Nat.le_refl _
  | cons op rest ih =>
    intro s s' h
    unfold run at h
    cases ha : Op.apply s op with
    | error e => simp only [ha] at h; cases h
    | ok s1 =>
      simp only [ha] at h
      exact Nat.le_trans (op_apply_length_mono ha) (ih _ _ h)

/-! ### Concrete states used by individual claims -/

/-- C1 state: slot 1 holds the value of sparse index 6 = (group 1, sub-slot 2),
via redirect entry 1 in group 1; slot 0 holds some other live value. -/
def stateC1 : IDVStorage Nat :=
  { inner := [⟨[0, 0, 0, 0], some 10⟩, ⟨[0, 0, 1, 0], some 20⟩]
    next_free_slot := 0 }

/-- C2 state: slot 1 holds the value of sparse index 5 = (group 1, sub-slot 1),
via redirect entry 1 in group 1. -/
def stateC2 : IDVStorage Nat :=
  { inner := [⟨[0, 0, 0, 0], some 3⟩, ⟨[0, 1, 0, 0], some 5⟩]
    next_free_slot := 0 }

/-- C6 witness state: two blank groups, `next_free_slot = 1`. -/
def stateC6 : IDVStorage Nat :=
  { inner := [InterleavedGroup.blank, InterleavedGroup.blank]
    next_free_slot := 1 }

/-- C7 counterexample start state: two blank groups, `next_free_slot = 1`
(so that `find_free` works at all). -/
def stateC7 : IDVStorage Nat :=
  { inner := [InterleavedGroup.blank, InterleavedGroup.blank]
    next_free_slot := 1 }

/-- C7 witness state: key 0 live in slot 0. -/
def stateC7b : IDVStorage Nat :=
  { inner := [⟨[0, 0, 0, 0], some 7⟩]
    next_free_slot := 0 }

/-- C8 witness state: one occupied slot. -/
def stateC8 : IDVStorage Nat :=
  { inner := [⟨[0, 0, 0, 0], some 7⟩]
    next_free_slot := 0 }

/-- C9 state: 4 groups, keys 0..3 live in slots 0..3 (group 0's redirects),
`next_free_slot = 1`. -/
def stateC9 : IDVStorage Nat :=
  { inner := [⟨[0, 1, 2, 3], some 100⟩, ⟨[0, 0, 0, 0], some 101⟩,
              ⟨[0, 0, 0, 0], some 102⟩, ⟨[0, 0, 0, 0], some 103⟩]
    next_free_slot := 1 }

/-- C10 witness state: two blank groups, `next_free_slot = 1`. -/
def stateC10 : IDVStorage Nat :=
  { inner := [InterleavedGroup.blank, InterleavedGroup.blank]
    next_free_slot := 1 }

/-! ### Claim theorems -/

/-- C1: the claim says `clean` tests the flat index `group * 4 + sub_slot` and
frees exactly the dense slots resolved from the dead pairs.  The code instead
tests the PRODUCT `group * sub_slot`.  Concretely, in `stateC1` slot 1 holds
the value of sparse index 6 = 1 * 4 + 2 (group 1, sub-slot 2, redirect
entry 1).  When the liveness query reports exactly flat index 6 dead, the
claim demands slot 1 be freed, but `c_clean` leaves the whole state unchanged
because it tests `1 * 2 = 2`, not `6`; and when the query reports exactly
flat index 2 dead, the claim demands exactly slot 0 (the redirect target of
pair (0, 2)) be freed, but `c_clean` instead frees slot 1 and leaves
slot 0 occupied. -/
theorem clean_product_indexing_bug :
    c_clean stateC1 (fun n => n == 6) = .ok stateC1 ∧
    c_clean stateC1 (fun n => n == 2)
      = .ok { inner := [⟨[0, 0, 0, 0], some 10⟩, ⟨[0, 0, 1, 0], none⟩]
              next_free_slot := 0 } :=
  ⟨rfl, rfl⟩

/-- C2: the claim says `clean(L)` leaves untouched every dense slot that is
not the redirect target of a pair whose flat index is in `L`.  In `stateC2`
with `L = {1}`, the only pair with flat index in `L` is (group 0, sub-slot 1),
whose redirect target is slot 0; slot 1 is the redirect target only of pair
(group 1, sub-slot 1), flat index 5, which is not in `L` — yet the code
clears slot 1 (payload `some 5` becomes `none`) because it tests the product
`1 * 1 = 1`. -/
theorem clean_clears_unrelated_slot :
    c_clean stateC2 (fun n => n == 1)
      = .ok { inner := [⟨[0, 0, 0, 0], some 3⟩, ⟨[0, 1, 0, 0], none⟩]
              next_free_slot := 0 } :=
  rfl

/-- C3: the claim says `insert(k, v); get(k)` yields `v` in any reachable
state for a key not currently live.  In the default (initial, trivially
reachable) state every `c_insert` dereferences out of bounds: `find_free`
computes `start = next_free_slot - 1 = 0 - 1`, which wraps to `2^64 - 1`, and
the subsequent `get_unchecked` read is out of bounds (modelled `.error .oob`),
so the round trip cannot even complete. -/
theorem insert_get_roundtrip_crashes_from_default :
    c_insert (IDVStorage.default Nat) 0 7 = .error .oob ∧
    c_insert (IDVStorage.default Nat) 1 7 = .error .oob := by
  constructor
  · simp only [c_insert, check_prefill_zero]
    rfl
  · have hcp : check_prefill (IDVStorage.default Nat) 1
        = { inner := [InterleavedGroup.blank, InterleavedGroup.blank,
                      InterleavedGroup.blank, InterleavedGroup.blank]
            next_free_slot := 0 } := by
      simp [check_prefill, check_prefill_loop, IDVStorage.default]
    simp only [c_insert, hcp]
    rfl

/-- C4: the claim says every operation with its precondition satisfied
executes with all array accesses in bounds and no unsigned underflow, and in
particular the first insert into a default storage does not underflow
`next_free_slot - 1`.  The code underflows: with `next_free_slot = 0` (the
initial value) the wrapped start position is `2^64 - 1`, and on the state an
insert of index 1 reaches after prefilling (4 blank groups,
`next_free_slot = 0`) the scan then reads index `2^64 - 1` out of bounds. -/
theorem find_free_start_underflows :
    usizeSub1 0 = 2 ^ 64 - 1 ∧
    find_free ({ inner := [InterleavedGroup.blank, InterleavedGroup.blank,
                           InterleavedGroup.blank, InterleavedGroup.blank]
                 next_free_slot := 0 } : IDVStorage Nat) 6 = .error .oob :=
  ⟨rfl, rfl⟩

/-- C5: the claim says the growth step of `insert(k, v)` leaves the table
with at least `k/4 + 1` groups.  For `k = 0` on the default storage,
`check_prefill(0)` performs no growth at all (its loop condition
`inner.len()/4 < idx_cap` is already false), leaving 0 groups, which is less
than `0/4 + 1 = 1`; the subsequent redirect write at group 0 is out of
bounds (the code's own `debug_assert!(group_idx < self.inner.len())`
fails). -/
theorem check_prefill_misses_group_zero :
    (check_prefill (IDVStorage.default Nat) 0).inner.length = 0 := by
  rw [check_prefill_zero]
  rfl

/-- C6 counterexample: the claim says free-slot acquisition always terminates
returning a free slot.  At the default state (`next_free_slot = 0`, empty
table) `find_free` instead performs an out-of-bounds read (undefined
behaviour), returning no slot at all. -/
theorem find_free_errors_at_default_state :
    find_free (IDVStorage.default Nat) 2 = .error .oob :=
  rfl

/-- C9: the claim says an insert immediately following a remove reuses the
freed slot and does not increase the table length.  Start from 4 groups, all
payloads occupied, keys 0..3 mapped to slots 0..3 by group 0's redirects, and
`next_free_slot = 1`; `remove(2)` frees slot 2, then `insert(1, 999)` (key 1's
home group 0 is covered, so no prefill growth happens) probes ONLY slot
`next_free_slot - 1 = 0` — the loop exit condition `i != start + 1` stops the
scan after one probe despite the "Loop around once" comment — finds it
occupied, and grows the table from 4 to 6 groups even though slot 2 is
free. -/
theorem insert_after_remove_grows_table :
    stateC9.inner.length = 4 ∧
    ((c_remove stateC9 2).bind (fun p => c_insert p.2 1 999)).map
      (fun t => t.inner.length) = .ok 6 := by
  constructor
  · rfl
  · have h1 : c_remove stateC9 2
        = .ok (some 102,
          { inner := [⟨[0, 1, 2, 3], some 100⟩, ⟨[0, 0, 0, 0], some 101⟩,
                      ⟨[0, 0, 0, 0], none⟩, ⟨[0, 0, 0, 0], some 103⟩]
            next_free_slot := 1 }) := rfl
    rw [h1]
    have h2 : check_prefill ({ inner := [⟨[0, 1, 2, 3], some 100⟩,
                                         ⟨[0, 0, 0, 0], some 101⟩,
                                         ⟨[0, 0, 0, 0], none⟩,
                                         ⟨[0, 0, 0, 0], some 103⟩]
                               next_free_slot := 1 } : IDVStorage Nat) 1
        = { inner := [⟨[0, 1, 2, 3], some 100⟩, ⟨[0, 0, 0, 0], some 101⟩,
                      ⟨[0, 0, 0, 0], none⟩, ⟨[0, 0, 0, 0], some 103⟩]
            next_free_slot := 1 } :=
      check_prefill_noop _ 1 (by decide)
    show ((c_insert _ 1 999).map (fun t => t.inner.length)) = .ok 6
    simp only [c_insert, h2]
    rfl

/-- C7 counterexample: the claim says the checked get returns `None` for any
index not currently holding a live value, in a storage covering its group.
Start from an all-blank two-group storage with `next_free_slot = 1`; insert
key 0 (value 7, stored in slot 0).  Key 1 was never inserted, yet `c_get 1`
resolves key 1's untouched initial-zero redirect entry to slot 0 and returns
`some 7` — a value, not an absence signal. -/
theorem get_returns_value_for_never_inserted_key :
    (c_insert stateC7 0 7).bind (fun t => c_get t 1) = .ok (some 7) := by
  simp only [c_insert, check_prefill_zero]
  rfl

/-- C7 (amended): the checked get reports absence exactly when the resolved
dense slot's payload is empty; in particular, for any index that has just
been removed (and not reinserted), `c_get` returns `.ok none` — an explicit
absence signal.  (The unamended claim fails for never-inserted indices whose
initial-zero redirect entry aliases an occupied slot, see the
counterexample.) -/
theorem get_after_remove_is_none {T : Type} (s : IDVStorage T) (idx : Nat)
    (p : Option T) (s' : IDVStorage T) (h : c_remove s idx = .ok (p, s')) :
    c_get s' idx = .ok none := by
  unfold c_remove at h
  cases hr : resolve_to_internal s idx with
  | none =>
    simp only [hr] at h
    cases h
  | some internal =>
    simp only [hr] at h
    cases hg : s.inner.get? internal with
    | none =>
      simp only [hg] at h
      cases h
    | some e =>
      simp only [hg] at h
      cases h
      have hlt : internal < s.inner.length := get_q_some_lt hg
      have hres : resolve_to_internal
          { s with inner := s.inner.set internal { e with data := none } } idx
          = some internal := by
        unfold resolve_to_internal at hr ⊢
        by_cases hcase : internal = idx / 4
        · subst hcase
          rw [get_q_set_self _ hlt]
          simp only [hg] at hr
          exact hr
        · rw [get_q_set_other _ hcase]
          exact hr
      unfold c_get
      simp only [hres]
      rw [get_q_set_self _ hlt]

/-- C7 witness: removing key 0 from a one-group storage where it is live
(`stateC7b`) makes the checked get return `.ok none`. -/
theorem get_after_remove_is_none_witness :
    c_get ({ inner := [⟨[0, 0, 0, 0], none⟩]
             next_free_slot := 0 } : IDVStorage Nat) 0 = .ok none :=
  get_after_remove_is_none stateC7b 0 (some 7)
    ({ inner := [⟨[0, 0, 0, 0], none⟩], next_free_slot := 0 }) rfl

/-- C6 (amended): in any state with `1 ≤ next_free_slot < inner.length` and
a table length below the `usize` modulus — the states produced by a
successful earlier `find_free` — free-slot acquisition terminates within the
canonical fuel, returns an in-bounds slot whose payload is empty, and grows
the table at most once (by two groups).  (The unamended "always" claim fails
at the default state, where acquisition underflows and reads out of bounds:
see the counterexample.) -/
theorem find_free_returns_free_slot_in_good_state {T : Type} (s : IDVStorage T)
    (h1 : 1 ≤ s.next_free_slot) (h2 : s.next_free_slot < s.inner.length)
    (h3 : s.inner.length < USIZE) :
    ∃ ip s', find_free s (s.inner.length + 2) = .ok (ip, s') ∧
      ip < s'.inner.length ∧
      (∃ g, s'.inner.get? ip = some g ∧ g.data = none) ∧
      s.inner.length ≤ s'.inner.length ∧
      s'.inner.length ≤ s.inner.length + 2 := by
  have hlen2 : 2 ≤ s.inner.length := by omega
  have hs : usizeSub1 s.next_free_slot = s.next_free_slot - 1 := by
    unfold usizeSub1
    rw [if_neg (by omega)]
  have hlen1 : usizeSub1 s.inner.length = s.inner.length - 1 := by
    unfold usizeSub1
    rw [if_neg (by omega)]
  have hstartlt : s.next_free_slot - 1 < s.inner.length - 1 := by omega
  have hmod : (s.next_free_slot - 1 + 1) % USIZE = s.next_free_slot - 1 + 1 :=
    Nat.mod_eq_of_lt (by omega)
  have hne : s.next_free_slot - 1 ≠ (s.next_free_slot - 1 + 1) % USIZE := by
    rw [hmod]
    omega
  have hreset : ¬ (s.next_free_slot - 1 = usizeSub1 s.inner.length) := by
    rw [hlen1]
    omega
  obtain ⟨e, hge⟩ := get_q_of_lt (l := s.inner) (n := s.next_free_slot - 1) (by omega)
  cases hd : e.data with
  | none =>
    have hscan : find_free_scan s.inner (s.next_free_slot - 1) (s.next_free_slot - 1)
        (s.inner.length + 2) = .found (s.next_free_slot - 1) := by
      rw [show s.inner.length + 2 = (s.inner.length + 1) + 1 from rfl, find_free_scan,
        if_pos hne, if_neg hreset, hge]
      dsimp only
      rw [hd]
    refine ⟨s.next_free_slot - 1, { s with next_free_slot := s.next_free_slot - 1 },
      ?_, ?_, ⟨e, hge, hd⟩, Nat.le_refl _, ?_⟩
    · simp only [find_free, hs, hscan]
    · show s.next_free_slot - 1 < s.inner.length
      omega
    · show s.inner.length ≤ s.inner.length + 2
      omega
  | some w =>
    have hscan : find_free_scan s.inner (s.next_free_slot - 1) (s.next_free_slot - 1)
        (s.inner.length + 2) = .exhausted := by
      rw [show s.inner.length + 2 = (s.inner.length + 1) + 1 from rfl, find_free_scan,
        if_pos hne, if_neg hreset, hge]
      dsimp only
      rw [hd]
      dsimp only
      rw [hmod, find_free_scan, if_neg (by rw [hmod]; omega)]
    have happlen : (s.inner ++
        [InterleavedGroup.blank, InterleavedGroup.blank]).length
        = s.inner.length + 2 := by
      simp
    refine ⟨s.inner.length + 1,
      { inner := s.inner ++ [InterleavedGroup.blank, InterleavedGroup.blank]
        next_free_slot := s.inner.length + 1 }, ?_, ?_, ?_, ?_, ?_⟩
    · simp only [find_free, hs, hscan, happlen]
      rfl
    · simp only [happlen]
      omega
    · exact ⟨InterleavedGroup.blank, get_q_append_two _ _ s.inner, rfl⟩
    · simp only [happlen]
      omega
    · simp only [happlen]
      omega

/-- C6 witness: at the two-blank-group state with `next_free_slot = 1`
(`stateC6`), acquisition succeeds with the canonical fuel and returns an
in-bounds free slot without more than one growth. -/
theorem find_free_returns_free_slot_in_good_state_witness :
    ∃ ip s', find_free stateC6 (stateC6.inner.length + 2) = .ok (ip, s') ∧
      ip < s'.inner.length ∧
      (∃ g, s'.inner.get? ip = some g ∧ g.data = none) ∧
      stateC6.inner.length ≤ s'.inner.length ∧
      s'.inner.length ≤ stateC6.inner.length + 2 :=
  find_free_returns_free_slot_in_good_state stateC6 (by decide) (by decide) (by decide)

/-- C8: the table length never decreases across any successful sequence of
the exposed operations, and `check_prefill` called twice with a
non-increasing capacity argument performs no additional growth on the second
call (the state is unchanged). -/
theorem table_length_monotone_and_prefill_idempotent :
    (∀ (T : Type) (s s' : IDVStorage T) (ops : List (Op T)),
      run s ops = .ok s' → s.inner.length ≤ s'.inner.length) ∧
    (∀ (T : Type) (s : IDVStorage T) (m n : Nat), m ≤ n →
      check_prefill (check_prefill s n) m = check_prefill s n) := by
  constructor
  · intro T s s' ops h
    exact run_length_mono ops s s' h
  · intro T s m n hmn
    exact check_prefill_noop _ m
      (Nat.le_trans hmn (check_prefill_loop_spec s.inner n).2.1)

/-- C8 witness: a `remove` keeps the length (1 ≤ 1), and a second
`check_prefill 1` after a first `check_prefill 1` changes nothing. -/
theorem table_length_monotone_and_prefill_idempotent_witness :
    stateC8.inner.length ≤
      ({ inner := [⟨[0, 0, 0, 0], none⟩]
         next_free_slot := 0 } : IDVStorage Nat).inner.length ∧
    check_prefill (check_prefill (IDVStorage.default Nat) 1) 1
      = check_prefill (IDVStorage.default Nat) 1 :=
  ⟨table_length_monotone_and_prefill_idempotent.1 Nat stateC8
      ({ inner := [⟨[0, 0, 0, 0], none⟩], next_free_slot := 0 })
      [Op.remove 0] rfl,
    table_length_monotone_and_prefill_idempotent.2 Nat
      (IDVStorage.default Nat) 1 1 (Nat.le_refl 1)⟩

/-- C10: redirect entries are `u16` while slot positions are `usize`;
`c_insert` truncates the acquired position with `as u16` (`% 2^16`).
Whenever an insert completes and the resulting table length is at most
`2^16` groups, the truncation is lossless: the redirect entry written for
`idx` resolves to exactly the dense slot in which `v` was stored, and that
slot holds `v`. -/
theorem redirect_write_lossless_below_u16_capacity {T : Type} (s : IDVStorage T)
    (idx : Nat) (v : T) (s' : IDVStorage T) (hwf : WF s)
    (h : c_insert s idx v = .ok s') (hcap : s'.inner.length ≤ 2 ^ 16) :
    ∃ ip, ip < s'.inner.length ∧ resolve_to_internal s' idx = some ip ∧
      (s'.inner.getD ip InterleavedGroup.blank).data = some v := by
  simp only [c_insert] at h
  cases hf : find_free (check_prefill s idx) ((check_prefill s idx).inner.length + 2) with
  | error e =>
    simp only [hf] at h
    cases h
  | ok p =>
    obtain ⟨ip, s1⟩ := p
    simp only [hf] at h
    cases hg : s1.inner.get? (idx / 4) with
    | none =>
      simp only [hg] at h
      cases h
    | some g =>
      simp only [hg] at h
      cases hg2 : (s1.inner.set (idx / 4)
          { g with redirects := g.redirects.set (idx % 4) (ip % 2 ^ 16) }).get? ip with
      | none =>
        simp only [hg2] at h
        cases h
      | some e =>
        simp only [hg2] at h
        cases h
        have hip : ip < s1.inner.length := (find_free_ok_len hf).1
        have hgi : idx / 4 < s1.inner.length := get_q_some_lt hg
        have hwf1 : WF s1 := wf_find_free (wf_check_prefill hwf idx) hf
        have hredlen : g.redirects.length = 4 := hwf1 g (get_q_mem hg)
        have hsub : idx % 4 < g.redirects.length := by
          rw [hredlen]
          omega
        have hlen1 : (s1.inner.set (idx / 4)
            { g with redirects := g.redirects.set (idx % 4) (ip % 2 ^ 16) }).length
            = s1.inner.length := by
          simp
        have hcap1 : s1.inner.length ≤ 2 ^ 16 := by
          simpa [List.length_set] using hcap
        have hmod : ip % 2 ^ 16 = ip := Nat.mod_eq_of_lt (by omega)
        have hres : ∃ gf, ((s1.inner.set (idx / 4)
            { g with redirects := g.redirects.set (idx % 4) (ip % 2 ^ 16) }).set ip
              { e with data := some v }).get? (idx / 4) = some gf ∧
            gf.redirects = g.redirects.set (idx % 4) (ip % 2 ^ 16) := by
          by_cases hcase : idx / 4 = ip
          · have h2 : (s1.inner.set (idx / 4)
                { g with redirects := g.redirects.set (idx % 4) (ip % 2 ^ 16) }).get? ip
                = some { g with redirects := g.redirects.set (idx % 4) (ip % 2 ^ 16) } := by
              rw [← hcase]
              exact get_q_set_self _ hgi
            rw [h2] at hg2
            have he : e = { g with redirects := g.redirects.set (idx % 4) (ip % 2 ^ 16) } := by
              cases hg2
              rfl
            refine ⟨{ e with data := some v }, ?_, by rw [he]⟩
            rw [hcase]
            exact get_q_set_self _ (by simp only [List.length_set]; exact hip)
          · have h1 : ((s1.inner.set (idx / 4)
                { g with redirects := g.redirects.set (idx % 4) (ip % 2 ^ 16) }).set ip
                  { e with data := some v }).get? (idx / 4)
                = (s1.inner.set (idx / 4)
                  { g with redirects := g.redirects.set (idx % 4) (ip % 2 ^ 16) }).get?
                    (idx / 4) :=
              get_q_set_other _ (fun hh => hcase hh.symm)
            rw [get_q_set_self _ hgi] at h1
            exact ⟨_, h1, rfl⟩
        obtain ⟨gf, hgf, hgfr⟩ := hres
        have hdata : ((s1.inner.set (idx / 4)
            { g with redirects := g.redirects.set (idx % 4) (ip % 2 ^ 16) }).set ip
              { e with data := some v }).get? ip = some { e with data := some v } :=
          get_q_set_self _ (by rw [hlen1]; exact hip)
        refine ⟨ip, ?_, ?_, ?_⟩
        · simp only [List.length_set]
          exact hip
        · unfold resolve_to_internal
          simp only [hgf]
          rw [hgfr, getD_set_self _ _ hsub, hmod]
        · rw [getD_of_get_q _ hdata]

/-- C10 witness: inserting value 7 at key 0 into `stateC10` (two groups,
well-formed, resulting length 2 ≤ 2^16) stores 7 in slot 0 and writes
redirect entry 0, which resolves losslessly back to slot 0. -/
theorem redirect_write_lossless_below_u16_capacity_witness :
    ∃ ip, ip < ({ inner := [⟨[0, 0, 0, 0], some 7⟩, InterleavedGroup.blank]
                  next_free_slot := 0 } : IDVStorage Nat).inner.length ∧
      resolve_to_internal ({ inner := [⟨[0, 0, 0, 0], some 7⟩, InterleavedGroup.blank]
                             next_free_slot := 0 } : IDVStorage Nat) 0 = some ip ∧
      (({ inner := [⟨[0, 0, 0, 0], some 7⟩, InterleavedGroup.blank]
          next_free_slot := 0 } : IDVStorage Nat).inner.getD ip
            InterleavedGroup.blank).data = some 7 :=
  redirect_write_lossless_below_u16_capacity stateC10 0 7
    ({ inner := [⟨[0, 0, 0, 0], some 7⟩, InterleavedGroup.blank], next_free_slot := 0 })
    (by unfold WF; decide)
    (by simp only [c_insert, check_prefill_zero]; rfl)
    (by decide)

end IDVS
